import Mathlib

/-!
Shallow embedding of the hex-string library (src/src/lib.rs).

Strings are modelled as `List Char`; Rust `u8` values are modelled as `Nat`
(with explicit `< 256` bounds where the claim needs them).  Fallible Rust
functions returning `Result` are modelled with `Except`; a Rust panic
(`.expect`, out-of-bounds indexing) is modelled by `Option` with `none`
standing for the panic.  `String::len` in Rust is the UTF-8 byte length,
modelled by `utf8Length` below.
-/

namespace HexSpec

/-- The error enum `HexStringError` of the library. -/
inductive HexStringError where
  | InvalidCharacter (c : Char)
  | InvalidStringLength
  | InvalidNibble (n : Nat)
deriving DecidableEq, Repr

/-- The struct `HexString(String)`: a wrapper around a text payload. -/
structure HexString where
  payload : List Char
deriving DecidableEq, Repr

/-- `hexchar_to_nibble`: maps a character to its nibble value, failing with
`InvalidCharacter` on any character outside `0-9a-f`. -/
def hexchar_to_nibble (c : Char) : Except HexStringError Nat :=
  match c with
  | '0' => .ok 0
  | '1' => .ok 1
  | '2' => .ok 2
  | '3' => .ok 3
  | '4' => .ok 4
  | '5' => .ok 5
  | '6' => .ok 6
  | '7' => .ok 7
  | '8' => .ok 8
  | '9' => .ok 9
  | 'a' => .ok 10
  | 'b' => .ok 11
  | 'c' => .ok 12
  | 'd' => .ok 13
  | 'e' => .ok 14
  | 'f' => .ok 15
  | _ => .error (HexStringError.InvalidCharacter c)

/-- `nibble_to_hexchar`: maps a nibble value 0-15 to its character, failing
with `InvalidNibble` on any other value. -/
def nibble_to_hexchar (b : Nat) : Except HexStringError Char :=
  match b with
  | 0 => .ok '0'
  | 1 => .ok '1'
  | 2 => .ok '2'
  | 3 => .ok '3'
  | 4 => .ok '4'
  | 5 => .ok '5'
  | 6 => .ok '6'
  | 7 => .ok '7'
  | 8 => .ok '8'
  | 9 => .ok '9'
  | 10 => .ok 'a'
  | 11 => .ok 'b'
  | 12 => .ok 'c'
  | 13 => .ok 'd'
  | 14 => .ok 'e'
  | 15 => .ok 'f'
  | _ => .error (HexStringError.InvalidNibble b)

/-- `u8_to_hex_string`: converts a byte to its two hex characters via
`nibble_to_hexchar` on `(b & 0xf0) >> 4` and `b & 0x0f`; the `.expect`
panic branch is modelled by `none`. -/
def u8_to_hex_string (b : Nat) : Option (Char × Char) :=
  match nibble_to_hexchar ((b &&& 0xf0) >>> 4), nibble_to_hexchar (b &&& 0x0f) with
  | .ok upper, .ok lower => some (upper, lower)
  | _, _ => none

/-- The contents of the `valid_chars` HashSet built inside `from_string`,
in insertion order. -/
def valid_chars : List Char :=
  ['0', '1', '2', '3', '4', '5', '6', '7', '8', '9'] ++
    ['a', 'b', 'c', 'd', 'e', 'f']

/-- UTF-8 byte size of one character, as Rust `char::len_utf8` computes it. -/
def utf8Size (c : Char) : Nat :=
  if c.toNat < 0x80 then 1
  else if c.toNat < 0x800 then 2
  else if c.toNat < 0x10000 then 3
  else 4

/-- UTF-8 byte length of a string, as Rust `str::len` returns it. -/
def utf8Length (s : List Char) : Nat :=
  (s.map utf8Size).sum

/-- The character-scanning loop of `from_string`: returns the error for the
first character not contained in `valid_chars`, unit on success. -/
def scan_chars : List Char → Except HexStringError Unit
  | [] => .ok ()
  | c :: rest =>
    if valid_chars.contains c then scan_chars rest
    else .error (HexStringError.InvalidCharacter c)

/-- `HexString::from_string`: rejects odd (byte-)length input, then scans
all characters, then stores the input verbatim. -/
def from_string (s : List Char) : Except HexStringError HexString :=
  if utf8Length s % 2 ≠ 0 then .error HexStringError.InvalidStringLength
  else
    match scan_chars s with
    | .error e => .error e
    | .ok () => .ok ⟨s⟩

/-- The byte loop of `from_bytes`: each byte is turned into its two hex
characters, concatenated in input order (`none` models the internal panic). -/
def from_bytes_chars : List Nat → Option (List Char)
  | [] => some []
  | b :: rest =>
    match u8_to_hex_string b, from_bytes_chars rest with
    | some p, some cs => some (p.1 :: p.2 :: cs)
    | _, _ => none

/-- `HexString::from_bytes`. -/
def from_bytes (v : List Nat) : Option HexString :=
  (from_bytes_chars v).map HexString.mk

/-- `HexString::as_string`: a copy of the stored payload. -/
def HexString.as_string (h : HexString) : List Char :=
  h.payload

/-- `HexString::as_str`: a view of the stored payload. -/
def HexString.as_str (h : HexString) : List Char :=
  h.payload

/-- The chunking loop of `as_bytes`: consecutive groups of two characters;
a trailing odd character yields a one-element group. -/
def chunk2 : List Char → List (List Char)
  | [] => []
  | [c] => [[c]]
  | c1 :: c2 :: rest => [c1, c2] :: chunk2 rest

/-- The inner `to_byte` of `as_bytes`: indexes `octet[0]` and `octet[1]`
(panic on a short group is `none`), converts both through
`hexchar_to_nibble` (panic on failure is `none`), and combines as
`(upper << 4) | lower`. -/
def to_byte (octet : List Char) : Option Nat :=
  match octet.get? 0, octet.get? 1 with
  | some c0, some c1 =>
    match hexchar_to_nibble c0, hexchar_to_nibble c1 with
    | .ok upper, .ok lower => some ((upper <<< 4) ||| lower)
    | _, _ => none
  | _, _ => none

/-- The mapping loop of `as_bytes` over the chunked octets. -/
def as_bytes_list : List (List Char) → Option (List Nat)
  | [] => some []
  | o :: rest =>
    match to_byte o, as_bytes_list rest with
    | some b, some bs => some (b :: bs)
    | _, _ => none

/-- `HexString::as_bytes`. -/
def HexString.as_bytes (h : HexString) : Option (List Nat) :=
  as_bytes_list (chunk2 h.payload)

/-- `impl FromStr for HexString`: delegates to `from_string`. -/
def from_str (s : List Char) : Except HexStringError HexString :=
  from_string s

/-- Decidable round-trip check for one byte, used to settle the per-byte
encode/decode facts by exhaustive evaluation. -/
def byteOk (b : Nat) : Bool :=
  match u8_to_hex_string b with
  | some (hi, lo) => to_byte [hi, lo] == some b
  | none => false

deriving instance DecidableEq for Except

/- Helper lemmas shared by the claim theorems. -/

/-- Values 16 and above always take the default branch of `nibble_to_hexchar`. -/
lemma nibble_to_hexchar_add16 (m : Nat) :
    nibble_to_hexchar (m + 16) = .error (HexStringError.InvalidNibble (m + 16)) := rfl

/-- Every nibble value 0-15 converts to a valid hex character, and the
character converts back to the same nibble. -/
lemma nibble_ok_of_le (n : Nat) (hn : n ≤ 15) :
    ∃ c, nibble_to_hexchar n = .ok c ∧ c ∈ valid_chars ∧ hexchar_to_nibble c = .ok n := by
  interval_cases n <;> exact ⟨_, rfl, by decide, by decide⟩

/-- A successful `nibble_to_hexchar` only produces characters of `valid_chars`. -/
lemma mem_of_nibble_ok {n : Nat} {c : Char} (h : nibble_to_hexchar n = .ok c) :
    c ∈ valid_chars := by
  unfold nibble_to_hexchar at h
  split at h <;> first
    | (cases h; decide)
    | (cases h)

/-- Characters outside `valid_chars` take the default branch of
`hexchar_to_nibble`. -/
lemma hexchar_to_nibble_not_mem {c : Char} (hnot : c ∉ valid_chars) :
    hexchar_to_nibble c = .error (HexStringError.InvalidCharacter c) := by
  unfold hexchar_to_nibble
  split <;> first
    | rfl
    | exact absurd (by decide) hnot

/-- The scanning loop succeeds on a string of valid characters. -/
lemma scan_chars_ok_of_all {s : List Char} (h : ∀ c ∈ s, c ∈ valid_chars) :
    scan_chars s = .ok () := by
  induction s with
  | nil => rfl
  | cons c rest ih =>
    have hc : valid_chars.contains c = true := List.elem_iff.mpr (h c (by simp))
    unfold scan_chars
    rw [if_pos hc]
    exact ih (fun x hx => h x (by simp [hx]))

/-- If the scanning loop succeeds, every character was valid. -/
lemma scan_chars_all_of_ok {s : List Char} (h : scan_chars s = .ok ()) :
    ∀ c ∈ s, c ∈ valid_chars := by
  induction s with
  | nil => simp
  | cons c rest ih =>
    unfold scan_chars at h
    by_cases hc : valid_chars.contains c = true
    · rw [if_pos hc] at h
      intro x hx
      rcases List.mem_cons.mp hx with rfl | hx2
      · exact List.elem_iff.mp hc
      · exact ih h x hx2
    · rw [if_neg hc] at h
      cases h

/-- The scanning loop reports exactly the first invalid character. -/
lemma scan_chars_find {s : List Char} {c : Char}
    (h : s.find? (fun x => ! valid_chars.contains x) = some c) :
    scan_chars s = .error (HexStringError.InvalidCharacter c) := by
  induction s with
  | nil => simp at h
  | cons a rest ih =>
    rw [List.find?_cons] at h
    by_cases ha : valid_chars.contains a = true
    · have hfa : (! valid_chars.contains a) = false := by rw [ha]; rfl
      rw [hfa] at h
      unfold scan_chars
      rw [if_pos ha]
      exact ih h
    · have hfalse : valid_chars.contains a = false := Bool.eq_false_iff.mpr ha
      have ha2 : (! valid_chars.contains a) = true := by rw [hfalse]; rfl
      rw [ha2] at h
      cases h
      unfold scan_chars
      rw [if_neg ha]

/-- Valid hex characters occupy one UTF-8 byte each. -/
lemma utf8Size_of_mem {c : Char} (h : c ∈ valid_chars) : utf8Size c = 1 := by
  fin_cases h <;> rfl

/-- On all-valid strings the UTF-8 byte length equals the character count. -/
lemma utf8Length_of_all {s : List Char} (h : ∀ c ∈ s, c ∈ valid_chars) :
    utf8Length s = s.length := by
  induction s with
  | nil => rfl
  | cons c rest ih =>
    have : utf8Length (c :: rest) = utf8Size c + utf8Length rest := by
      simp [utf8Length]
    rw [this, utf8Size_of_mem (h c (by simp)), ih (fun x hx => h x (by simp [hx]))]
    simp [Nat.add_comm]

/-- Exhaustive check: encoding then decoding any byte value returns it. -/
lemma byteOk_all : ∀ b : Fin 256, byteOk b.val = true := by
  set_option maxRecDepth 4000 in decide

/-- Per-byte round trip: `u8_to_hex_string` succeeds below 256 and `to_byte`
inverts it. -/
lemma byte_roundtrip {b : Nat} (hb : b < 256) :
    ∃ hi lo, u8_to_hex_string b = some (hi, lo) ∧ to_byte [hi, lo] = some b := by
  have h := byteOk_all ⟨b, hb⟩
  unfold byteOk at h
  rcases hu : u8_to_hex_string b with _ | ⟨hi, lo⟩ <;> rw [hu] at h
  · cases h
  · exact ⟨hi, lo, rfl, by simpa using h⟩

/-- The two characters produced by `u8_to_hex_string` are valid hex characters. -/
lemma u8_to_hex_string_mem {b : Nat} {hi lo : Char}
    (h : u8_to_hex_string b = some (hi, lo)) :
    hi ∈ valid_chars ∧ lo ∈ valid_chars := by
  unfold u8_to_hex_string at h
  rcases h1 : nibble_to_hexchar ((b &&& 0xf0) >>> 4) with e | c1 <;> rw [h1] at h
  · cases h
  · rcases h2 : nibble_to_hexchar (b &&& 0x0f) with e | c2 <;> rw [h2] at h
    · cases h
    · cases h
      exact ⟨mem_of_nibble_ok h1, mem_of_nibble_ok h2⟩

/-- Byte-list round trip through the character level. -/
lemma from_bytes_chars_roundtrip {v : List Nat} (hv : ∀ b ∈ v, b < 256) :
    ∃ cs, from_bytes_chars v = some cs ∧ as_bytes_list (chunk2 cs) = some v := by
  induction v with
  | nil => exact ⟨[], rfl, rfl⟩
  | cons b rest ih =>
    obtain ⟨hi, lo, hu, ht⟩ := byte_roundtrip (hv b (by simp))
    obtain ⟨cs, hcs, hrest⟩ := ih (fun x hx => hv x (by simp [hx]))
    refine ⟨hi :: lo :: cs, ?_, ?_⟩
    · unfold from_bytes_chars
      rw [hu, hcs]
    · have hch : chunk2 (hi :: lo :: cs) = [hi, lo] :: chunk2 cs := rfl
      rw [hch]
      unfold as_bytes_list
      rw [ht, hrest]

/-- Whatever `from_bytes_chars` produces has even length and valid characters. -/
lemma from_bytes_chars_inv {v : List Nat} {cs : List Char}
    (h : from_bytes_chars v = some cs) :
    cs.length % 2 = 0 ∧ ∀ c ∈ cs, c ∈ valid_chars := by
  induction v generalizing cs with
  | nil =>
    cases h
    exact ⟨rfl, by simp⟩
  | cons b rest ih =>
    unfold from_bytes_chars at h
    rcases hu : u8_to_hex_string b with _ | ⟨hi, lo⟩ <;> rw [hu] at h
    · cases h
    · rcases hr : from_bytes_chars rest with _ | cs2 <;> rw [hr] at h
      · cases h
      · cases h
        obtain ⟨hlen, hmem⟩ := ih hr
        obtain ⟨hhi, hlo⟩ := u8_to_hex_string_mem hu
        refine ⟨by simp [List.length_cons]; omega, ?_⟩
        intro x hx
        rcases List.mem_cons.mp hx with rfl | hx2
        · exact hhi
        · rcases List.mem_cons.mp hx2 with rfl | hx3
          · exact hlo
          · exact hmem x hx3

/-- A successful `from_string` stored the input verbatim, after an even
byte-length check and a full character scan. -/
lemma from_string_ok_inv {s : List Char} {h : HexString}
    (hok : from_string s = .ok h) :
    h = ⟨s⟩ ∧ utf8Length s % 2 = 0 ∧ ∀ c ∈ s, c ∈ valid_chars := by
  unfold from_string at hok
  by_cases hl : utf8Length s % 2 ≠ 0
  · rw [if_pos hl] at hok
    cases hok
  · rw [if_neg hl] at hok
    rcases hs : scan_chars s with e | ⟨⟩ <;> rw [hs] at hok
    · cases hok
    · cases hok
      exact ⟨rfl, by omega, scan_chars_all_of_ok hs⟩

/-- C1: for every byte sequence `v` (all entries below 256), `from_bytes v`
succeeds — the internal nibble panic is unreachable — and `as_bytes` on the
result returns exactly `v`, including for the empty sequence. -/
theorem from_bytes_as_bytes_roundtrip (v : List Nat) (hv : ∀ b ∈ v, b < 256) :
    ∃ h, from_bytes v = some h ∧ h.as_bytes = some v := by
  obtain ⟨cs, hcs, hdec⟩ := from_bytes_chars_roundtrip hv
  refine ⟨⟨cs⟩, ?_, hdec⟩
  unfold from_bytes
  rw [hcs]
  rfl

/-- Witness for C1 at the spec's concrete vector and at the empty sequence. -/
theorem from_bytes_as_bytes_roundtrip_witness :
    (∃ h, from_bytes [203, 187, 198, 225] = some h ∧
      h.as_bytes = some [203, 187, 198, 225]) ∧
    (∃ h, from_bytes [] = some h ∧ h.as_bytes = some []) :=
  ⟨from_bytes_as_bytes_roundtrip [203, 187, 198, 225] (by decide),
   from_bytes_as_bytes_roundtrip [] (by decide)⟩

/-- C2: for every even-length text of valid lowercase hex characters,
`from_string` succeeds and both text accessors return the input verbatim. -/
theorem from_string_as_string_roundtrip (s : List Char)
    (hlen : s.length % 2 = 0) (hchars : ∀ c ∈ s, c ∈ valid_chars) :
    ∃ h, from_string s = .ok h ∧ h.as_string = s ∧ h.as_str = s := by
  refine ⟨⟨s⟩, ?_, rfl, rfl⟩
  unfold from_string
  rw [utf8Length_of_all hchars, if_neg (by omega), scan_chars_ok_of_all hchars]

/-- Witness for C2 at the spec's concrete text. -/
theorem from_string_as_string_roundtrip_witness :
    ∃ h, from_string ['c', 'b', 'b', 'b', 'c', '6', 'e', '1'] = .ok h ∧
      h.as_string = ['c', 'b', 'b', 'b', 'c', '6', 'e', '1'] ∧
      h.as_str = ['c', 'b', 'b', 'b', 'c', '6', 'e', '1'] :=
  from_string_as_string_roundtrip _ (by decide) (by decide)

/-- C3: every `HexString` produced by a successful constructor — `from_string`,
`from_bytes`, or the `FromStr` parse integration — has an even-length payload
containing only characters of `valid_chars`; there is no mutation. -/
theorem hexstring_invariant (s : List Char) (v : List Nat) (h : HexString)
    (hcon : from_string s = .ok h ∨ from_bytes v = some h ∨ from_str s = .ok h) :
    h.payload.length % 2 = 0 ∧ ∀ c ∈ h.payload, c ∈ valid_chars := by
  rcases hcon with hfs | hfb | hfs
  · obtain ⟨rfl, hlen, hmem⟩ := from_string_ok_inv hfs
    exact ⟨by rw [← utf8Length_of_all hmem]; exact hlen, hmem⟩
  · unfold from_bytes at hfb
    rcases hc : from_bytes_chars v with _ | cs <;> rw [hc] at hfb
    · cases hfb
    · cases hfb
      exact from_bytes_chars_inv hc
  · obtain ⟨rfl, hlen, hmem⟩ := from_string_ok_inv hfs
    exact ⟨by rw [← utf8Length_of_all hmem]; exact hlen, hmem⟩

/-- Witness for C3 through the `from_string` constructor. -/
theorem hexstring_invariant_witness :
    (⟨['a', 'b']⟩ : HexString).payload.length % 2 = 0 ∧
      ∀ c ∈ (⟨['a', 'b']⟩ : HexString).payload, c ∈ valid_chars :=
  hexstring_invariant ['a', 'b'] [] ⟨['a', 'b']⟩ (Or.inl (by decide))

/-- C4: `from_string` fails with `InvalidStringLength` exactly when the
byte length is odd; otherwise it fails with `InvalidCharacter` carrying the
first character outside `valid_chars` (short-circuit), and succeeds when no
such character exists. -/
theorem from_string_error_order (s : List Char) :
    (utf8Length s % 2 ≠ 0 →
      from_string s = .error HexStringError.InvalidStringLength) ∧
    (utf8Length s % 2 = 0 →
      ∀ c, s.find? (fun x => ! valid_chars.contains x) = some c →
        from_string s = .error (HexStringError.InvalidCharacter c)) ∧
    (utf8Length s % 2 = 0 →
      s.find? (fun x => ! valid_chars.contains x) = none →
        from_string s = .ok ⟨s⟩) := by
  refine ⟨?_, ?_, ?_⟩
  · intro hodd
    unfold from_string
    rw [if_pos hodd]
  · intro heven c hfind
    unfold from_string
    rw [if_neg (by omega), scan_chars_find hfind]
  · intro heven hnone
    unfold from_string
    rw [if_neg (by omega), scan_chars_ok_of_all ?_]
    intro c hc
    have := List.find?_eq_none.mp hnone c hc
    have hcon : valid_chars.contains c = true := by
      rcases hb : valid_chars.contains c with _ | _
      · exact absurd (by rw [hb]; rfl) this
      · rfl
    exact List.elem_iff.mp hcon

/-- Witness for C4: odd length, first invalid character, and success. -/
theorem from_string_error_order_witness :
    from_string ['a', 'b', 'b'] = .error HexStringError.InvalidStringLength ∧
    from_string ['g', 'g'] = .error (HexStringError.InvalidCharacter 'g') ∧
    from_string ['a', 'b'] = .ok ⟨['a', 'b']⟩ :=
  ⟨(from_string_error_order ['a', 'b', 'b']).1 (by decide),
   (from_string_error_order ['g', 'g']).2.1 (by decide) 'g' (by decide),
   (from_string_error_order ['a', 'b']).2.2 (by decide) (by decide)⟩

/-- C5 counterexample: on `"abcdefg"` the call does NOT fail with
`InvalidCharacter('g')` — the odd-length check fires first. -/
theorem from_string_abcdefg_not_invalid_character :
    from_string ['a', 'b', 'c', 'd', 'e', 'f', 'g'] ≠
      Except.error (HexStringError.InvalidCharacter 'g') := by decide

/-- C5 amended: `from_string "abcdefg"` (7 characters, odd length, containing
the invalid character `g`) fails with `InvalidStringLength`, because the
length check runs before the character scan. -/
theorem from_string_abcdefg_invalid_length :
    from_string ['a', 'b', 'c', 'd', 'e', 'f', 'g'] =
      Except.error HexStringError.InvalidStringLength := by decide

/-- C6: `hexchar_to_nibble` maps each of `0`-`9` to its value and `a`-`f` to
10-15, and fails with `InvalidCharacter c` on every other character,
including the uppercase letters `A`-`F`. -/
theorem hexchar_to_nibble_spec (c : Char) :
    (hexchar_to_nibble '0' = .ok 0 ∧ hexchar_to_nibble '1' = .ok 1 ∧
     hexchar_to_nibble '2' = .ok 2 ∧ hexchar_to_nibble '3' = .ok 3 ∧
     hexchar_to_nibble '4' = .ok 4 ∧ hexchar_to_nibble '5' = .ok 5 ∧
     hexchar_to_nibble '6' = .ok 6 ∧ hexchar_to_nibble '7' = .ok 7 ∧
     hexchar_to_nibble '8' = .ok 8 ∧ hexchar_to_nibble '9' = .ok 9 ∧
     hexchar_to_nibble 'a' = .ok 10 ∧ hexchar_to_nibble 'b' = .ok 11 ∧
     hexchar_to_nibble 'c' = .ok 12 ∧ hexchar_to_nibble 'd' = .ok 13 ∧
     hexchar_to_nibble 'e' = .ok 14 ∧ hexchar_to_nibble 'f' = .ok 15) ∧
    (c ∉ valid_chars →
      hexchar_to_nibble c = .error (HexStringError.InvalidCharacter c)) ∧
    (∀ u ∈ (['A', 'B', 'C', 'D', 'E', 'F'] : List Char),
      hexchar_to_nibble u = .error (HexStringError.InvalidCharacter u)) :=
  ⟨by decide, fun hnot => hexchar_to_nibble_not_mem hnot, by decide⟩

/-- Witness for C6 at the uppercase character `A`. -/
theorem hexchar_to_nibble_spec_witness :
    'A' ∉ valid_chars ∧
      hexchar_to_nibble 'A' = .error (HexStringError.InvalidCharacter 'A') :=
  ⟨by decide, (hexchar_to_nibble_spec 'A').2.1 (by decide)⟩

/-- C7: `nibble_to_hexchar` inverts `hexchar_to_nibble` on 0-15 — it yields a
valid hex character that maps back to the input — and fails with
`InvalidNibble n` on every `n` above 15. -/
theorem nibble_to_hexchar_inverse (n : Nat) :
    (n ≤ 15 → ∃ c, nibble_to_hexchar n = .ok c ∧ c ∈ valid_chars ∧
      hexchar_to_nibble c = .ok n) ∧
    (15 < n → nibble_to_hexchar n = .error (HexStringError.InvalidNibble n)) := by
  refine ⟨fun hn => nibble_ok_of_le n hn, fun hn => ?_⟩
  obtain ⟨m, rfl⟩ : ∃ m, n = m + 16 := ⟨n - 16, by omega⟩
  exact nibble_to_hexchar_add16 m

/-- Witness for C7 at the nibble values 10 and 16. -/
theorem nibble_to_hexchar_inverse_witness :
    (∃ c, nibble_to_hexchar 10 = .ok c ∧ c ∈ valid_chars ∧
      hexchar_to_nibble c = .ok 10) ∧
    nibble_to_hexchar 16 = .error (HexStringError.InvalidNibble 16) :=
  ⟨(nibble_to_hexchar_inverse 10).1 (by decide),
   (nibble_to_hexchar_inverse 16).2 (by decide)⟩

/-- C8: for every byte below 256, `u8_to_hex_string` never panics: both the
high nibble `(b & 0xf0) >> 4` and the low nibble `b & 0x0f` convert
successfully, so the error branch of the nibble mapping is unreachable. -/
theorem u8_to_hex_string_total (b : Nat) (hb : b < 256) :
    ∃ hi lo, u8_to_hex_string b = some (hi, lo) ∧
      nibble_to_hexchar ((b &&& 0xf0) >>> 4) = .ok hi ∧
      nibble_to_hexchar (b &&& 0x0f) = .ok lo := by
  have h1 : (b &&& 0xf0) >>> 4 ≤ 15 := by
    have hle : b &&& 0xf0 ≤ 0xf0 := Nat.and_le_right
    calc (b &&& 0xf0) >>> 4 = (b &&& 0xf0) / 2 ^ 4 := Nat.shiftRight_eq_div_pow _ _
    _ ≤ 0xf0 / 2 ^ 4 := Nat.div_le_div_right hle
    _ = 15 := rfl
  have h2 : b &&& 0x0f ≤ 15 := Nat.and_le_right
  obtain ⟨hi, hhi, -, -⟩ := nibble_ok_of_le _ h1
  obtain ⟨lo, hlo, -, -⟩ := nibble_ok_of_le _ h2
  refine ⟨hi, lo, ?_, hhi, hlo⟩
  unfold u8_to_hex_string
  rw [hhi, hlo]

/-- Witness for C8 at the byte 203. -/
theorem u8_to_hex_string_total_witness :
    ∃ hi lo, u8_to_hex_string 203 = some (hi, lo) ∧
      nibble_to_hexchar ((203 &&& 0xf0) >>> 4) = .ok hi ∧
      nibble_to_hexchar (203 &&& 0x0f) = .ok lo :=
  u8_to_hex_string_total 203 (by decide)

/-- C9: the `FromStr` parse integration returns exactly the same result as
`from_string` on every input — the implementation delegates to it. -/
theorem from_str_eq_from_string : ∀ s : List Char, from_str s = from_string s :=
  fun _ => rfl

/-- C10: `from_string` measures the length in UTF-8 bytes, not characters:
the one-character input `é` (two bytes) passes the even-length check and
fails with `InvalidCharacter`, while the two-character input `aé` (three
bytes) fails with `InvalidStringLength`. -/
theorem from_string_length_in_bytes :
    (['é'] : List Char).length = 1 ∧ utf8Length ['é'] = 2 ∧
    from_string ['é'] = .error (HexStringError.InvalidCharacter 'é') ∧
    (['a', 'é'] : List Char).length = 2 ∧ utf8Length ['a', 'é'] = 3 ∧
    from_string ['a', 'é'] = .error HexStringError.InvalidStringLength := by
  decide

end HexSpec
